import Mathlib

/-!
Shallow embedding of `src/Fingerprint.py` (Wi-Fi fingerprinting and
MAC-association engine): tagged-element hashing (`hash_ies`), roster seeding
of the known-persistent address pool (`real_macs`), per-frame ingestion into
fingerprint-keyed device groups, and the heuristic scoring / assignment loop.

Bytes are modelled as `Nat` values (< 256 where produced by the embedding),
byte strings as `List Nat`, Python `set`s as duplicate-free insertion lists,
and `hashlib.sha256(...).hexdigest()` as an executable SHA-256 over byte
lists returning the lowercase hex string.
-/

namespace Fingerprint

/-- Truncate to a 32-bit word. -/
def w32 (n : Nat) : Nat := n % 4294967296

/-- 32-bit right rotation by `n` of a word `x < 2^32`. -/
def rotr (n x : Nat) : Nat := w32 ((x >>> n) ||| (x <<< (32 - n)))

/-- 32-bit bitwise complement. -/
def compl32 (x : Nat) : Nat := x ^^^ 4294967295

def smallSigma0 (x : Nat) : Nat := (rotr 7 x) ^^^ (rotr 18 x) ^^^ (x >>> 3)

def smallSigma1 (x : Nat) : Nat := (rotr 17 x) ^^^ (rotr 19 x) ^^^ (x >>> 10)

def bigSigma0 (x : Nat) : Nat := (rotr 2 x) ^^^ (rotr 13 x) ^^^ (rotr 22 x)

def bigSigma1 (x : Nat) : Nat := (rotr 6 x) ^^^ (rotr 11 x) ^^^ (rotr 25 x)

def chFn (x y z : Nat) : Nat := (x &&& y) ^^^ (compl32 x &&& z)

def majFn (x y z : Nat) : Nat := (x &&& y) ^^^ (x &&& z) ^^^ (y &&& z)

/-- The 64 SHA-256 round constants. -/
def shaK : List Nat :=
  [1116352408, 1899447441, 3049323471, 3921009573, 961987163, 1508970993,
   2453635748, 2870763221, 3624381080, 310598401, 607225278, 1426881987,
   1925078388, 2162078206, 2614888103, 3248222580, 3835390401, 4022224774,
   264347078, 604807628, 770255983, 1249150122, 1555081692, 1996064986,
   2554220882, 2821834349, 2952996808, 3210313671, 3336571891, 3584528711,
   113926993, 338241895, 666307205, 773529912, 1294757372, 1396182291,
   1695183700, 1986661051, 2177026350, 2456956037, 2730485921, 2820302411,
   3259730800, 3345764771, 3516065817, 3600352804, 4094571909, 275423344,
   430227734, 506948616, 659060556, 883997877, 958139571, 1322822218,
   1537002063, 1747873779, 1955562222, 2024104815, 2227730452, 2361852424,
   2428436474, 2756734187, 3204031479, 3329325298]

/-- SHA-256 working state, eight 32-bit words. -/
structure Hash8 where
  a : Nat
  b : Nat
  c : Nat
  d : Nat
  e : Nat
  f : Nat
  g : Nat
  h : Nat
deriving Repr, DecidableEq

/-- SHA-256 initial hash value. -/
def shaH0 : Hash8 :=
  ⟨1779033703, 3144134277, 1013904242, 2773480762,
   1359893119, 2600822924, 528734635, 1541459225⟩

/-- One compression round with round constant `k` and schedule word `wv`. -/
def shaRound (k wv : Nat) (s : Hash8) : Hash8 :=
  let t1 := w32 (s.h + bigSigma1 s.e + chFn s.e s.f s.g + k + wv)
  let t2 := w32 (bigSigma0 s.a + majFn s.a s.b s.c)
  ⟨w32 (t1 + t2), s.a, s.b, s.c, w32 (s.d + t1), s.e, s.f, s.g⟩

/-- Extend a message schedule by `fuel` further words. -/
def extendSchedule : Nat → List Nat → List Nat
  | 0, w => w
  | fuel + 1, w =>
    let i := w.length
    let nw := w32 (smallSigma1 (w.getD (i - 2) 0) + w.getD (i - 7) 0 +
                   smallSigma0 (w.getD (i - 15) 0) + w.getD (i - 16) 0)
    extendSchedule fuel (w ++ [nw])

/-- Combine a byte list into big-endian 32-bit words (groups of 4). -/
def bytesToWords : List Nat → List Nat
  | b0 :: b1 :: b2 :: b3 :: rest =>
      (((b0 * 256 + b1) * 256 + b2) * 256 + b3) :: bytesToWords rest
  | _ => []

/-- Compress one 64-byte block (given as 16 words) into the running state. -/
def compressBlock (st : Hash8) (block : List Nat) : Hash8 :=
  let ws := extendSchedule 48 (bytesToWords block)
  let fin := (shaK.zip ws).foldl (fun s kw => shaRound kw.1 kw.2 s) st
  ⟨w32 (st.a + fin.a), w32 (st.b + fin.b), w32 (st.c + fin.c),
   w32 (st.d + fin.d), w32 (st.e + fin.e), w32 (st.f + fin.f),
   w32 (st.g + fin.g), w32 (st.h + fin.h)⟩

/-- Split a byte list into successive 64-byte chunks (fuel-driven recursion;
the fuel bounds the number of chunks and is never exhausted when it is at
least the list length). -/
def chunksAux : Nat → List Nat → List (List Nat)
  | 0, _ => []
  | _ + 1, [] => []
  | fuel + 1, b :: rest =>
      (b :: rest).take 64 :: chunksAux fuel ((b :: rest).drop 64)

/-- Split a byte list into successive 64-byte chunks. -/
def chunks64 (l : List Nat) : List (List Nat) := chunksAux l.length l

/-- Big-endian 8-byte encoding of a length (in bits). -/
def be64 (n : Nat) : List Nat :=
  [(n >>> 56) &&& 255, (n >>> 48) &&& 255, (n >>> 40) &&& 255,
   (n >>> 32) &&& 255, (n >>> 24) &&& 255, (n >>> 16) &&& 255,
   (n >>> 8) &&& 255, n &&& 255]

/-- SHA-256 padding: 128, zeros to 56 mod 64, then bit length big-endian. -/
def padMessage (msg : List Nat) : List Nat :=
  let len := msg.length
  let k := (120 - ((len + 1) % 64)) % 64
  msg ++ [128] ++ List.replicate k 0 ++ be64 (len * 8)

/-- SHA-256 of a byte list, as the final eight-word state. -/
def sha256words (msg : List Nat) : Hash8 :=
  (chunks64 (padMessage msg)).foldl compressBlock shaH0

/-- Lowercase hex digit. -/
def hexDigit (n : Nat) : Char :=
  if n < 10 then Char.ofNat (48 + n) else Char.ofNat (87 + n)

/-- Eight lowercase hex characters of a 32-bit word, big-endian. -/
def wordHex (w : Nat) : List Char :=
  [hexDigit ((w >>> 28) &&& 15), hexDigit ((w >>> 24) &&& 15),
   hexDigit ((w >>> 20) &&& 15), hexDigit ((w >>> 16) &&& 15),
   hexDigit ((w >>> 12) &&& 15), hexDigit ((w >>> 8) &&& 15),
   hexDigit ((w >>> 4) &&& 15), hexDigit (w &&& 15)]

/-- Model of `hashlib.sha256(raw).hexdigest()`: lowercase hex digest of a byte list. -/
def sha256hex (msg : List Nat) : String :=
  let s := sha256words msg
  String.mk (wordHex s.a ++ wordHex s.b ++ wordHex s.c ++ wordHex s.d ++
             wordHex s.e ++ wordHex s.f ++ wordHex s.g ++ wordHex s.h)

/-! ## Tagged elements and hash_ies -/

/-- A tagged element as the ingestion loop records it: the element id paired
with its payload bytes (scapy `(elt.ID, elt.info or b"")`). -/
abbrev IE := Nat × List Nat

/-- Stable-fingerprint id set: HT Capabilities, Extended Caps, Vendor Specific. -/
def STABLE_IDS : List Nat := [45, 127, 221]

/-- Rate-fingerprint id set: Supported Rates, Extended Rates. -/
def RATE_IDS : List Nat := [1, 50]

/-- Python bytes comparison: lexicographic less-or-equal on byte lists. -/
def byteLe : List Nat → List Nat → Bool
  | [], _ => true
  | _ :: _, [] => false
  | x :: xs, y :: ys => if x < y then true else if y < x then false else byteLe xs ys

/-- Python tuple comparison on (id, payload) pairs: lexicographic, comparing
the id first and the payload bytes on equal ids. -/
def ieLe (x y : IE) : Bool :=
  if x.1 < y.1 then true else if y.1 < x.1 then false else byteLe x.2 y.2

/-- Insert an element into a list sorted by `ieLe`, before the first
element it is `ieLe`-below-or-equal. -/
def insertSorted (x : IE) : List IE → List IE
  | [] => [x]
  | y :: ys => if ieLe x y then x :: y :: ys else y :: insertSorted x ys

/-- Python `sorted(ies)`: sort the element list by the tuple order `ieLe`.
Python uses a stable mergesort; since `ieLe` is a total and antisymmetric
order on (id, payload) tuples, the sorted permutation is unique, so this
insertion sort computes the same list. -/
def sortIEs (ies : List IE) : List IE := ies.foldr insertSorted []

/-- The bytes one element contributes inside the `hash_ies` loop: nothing
when its id is not selected; otherwise the id byte followed by the payload,
truncated to its first 4 bytes for id 221 (`info[:4]`). -/
def ieContrib (ids : List Nat) (e : IE) : List Nat :=
  if e.1 ∈ ids then
    (if e.1 == 221 then e.1 :: e.2.take 4 else e.1 :: e.2)
  else []

/-- The concatenated byte stream `raw` built by `hash_ies`: elements in
`sorted(ies)` order, ids outside the selected set skipped. -/
def rawStream (ies : List IE) (ids : List Nat) : List Nat :=
  ((sortIEs ies).map (ieContrib ids)).flatten

/-- Model of `hash_ies(ies, ids)`: SHA-256 hex digest of the selected-element stream. -/
def hash_ies (ies : List IE) (ids : List Nat) : String :=
  sha256hex (rawStream ies ids)

/-! ## Roster seeding of the known-persistent pool (real_macs) -/

/-- Split a character list at every occurrence of the separator
(Python `str.split(sep)` for a one-character separator). -/
def splitOnChar (sep : Char) : List Char → List (List Char)
  | [] => [[]]
  | c :: cs =>
    let r := splitOnChar sep cs
    if c == sep then [] :: r
    else
      match r with
      | [] => [[c]]
      | h :: t => (c :: h) :: t

/-- Python `str.split(sep)` over Lean strings. -/
def pySplit (sep : Char) (s : String) : List String :=
  (splitOnChar sep s.data).map String.mk

/-- Is the character ASCII whitespace (the characters Python strip drops)? -/
def isSpaceChar (c : Char) : Bool :=
  c == ' ' || c == '\t' || c == '\n' || c == '\r' ||
    c == (Char.ofNat 11) || c == (Char.ofNat 12)

/-- Python `str.strip()`: drop leading and trailing whitespace. -/
def pyStrip (s : String) : String :=
  String.mk (((s.data.dropWhile isSpaceChar).reverse.dropWhile isSpaceChar).reverse)

/-- Uppercase an ASCII letter (Python `str.upper()` on the ASCII range the
roster and addresses use). -/
def upperChar (c : Char) : Char :=
  if 97 ≤ c.toNat ∧ c.toNat ≤ 122 then Char.ofNat (c.toNat - 32) else c

/-- Python `str.upper()` over Lean strings. -/
def pyUpper (s : String) : String := String.mk (s.data.map upperChar)

/-- Value of one hex digit character, none for a non-hex character. -/
def hexVal (c : Char) : Option Nat :=
  if 48 ≤ c.toNat ∧ c.toNat ≤ 57 then some (c.toNat - 48)
  else if 97 ≤ c.toNat ∧ c.toNat ≤ 102 then some (c.toNat - 87)
  else if 65 ≤ c.toNat ∧ c.toNat ≤ 70 then some (c.toNat - 55)
  else none

def hexParseAux : List Char → Nat → Option Nat
  | [], acc => some acc
  | c :: cs, acc =>
    match hexVal c with
    | some v => hexParseAux cs (acc * 16 + v)
    | none => none

/-- Python `int(s, 16)` on a stripped field: the value when the string is a
non-empty run of hex digits, `none` modelling the raised ValueError. -/
def hexParse (s : String) : Option Nat :=
  match s.data with
  | [] => none
  | l => hexParseAux l 0

/-- Insert into a Python set modelled as a duplicate-free list. -/
def insertSet {α : Type} [DecidableEq α] (x : α) (s : List α) : List α :=
  if x ∈ s then s else s ++ [x]

/-- One roster data row as the `real_macs` seeding loop processes it
(lines 59-67): split on commas, strip fields; skip the row unless the first
field has exactly 17 characters; uppercase it, parse the part before the
first colon as hex (`.error ()` models the uncaught ValueError when that
part is not hex), and add the address only when the locally-administered
bit 2 of the first octet is clear. -/
def processRosterLine (line : String) : Except Unit (Option String) :=
  let cols := (pySplit ',' line).map pyStrip
  if cols.length < 1 ∨ (cols.headD "").data.length ≠ 17 then Except.ok none
  else
    let mac := pyUpper (cols.headD "")
    match hexParse ((pySplit ':' mac).headD "") with
    | none => Except.error ()
    | some fb => if fb &&& 2 == 0 then Except.ok (some mac) else Except.ok none

def realMacsAux : List String → List String → Except Unit (List String)
  | acc, [] => Except.ok acc
  | acc, line :: rest =>
    match processRosterLine line with
    | Except.error e => Except.error e
    | Except.ok none => realMacsAux acc rest
    | Except.ok (some mac) => realMacsAux (insertSet mac acc) rest

/-- Build the known-persistent pool from the roster data lines (the lines
after the "Station MAC" header). An error in any row propagates: the script
wraps the loop in no handler. -/
def real_macs (lines : List String) : Except Unit (List String) :=
  realMacsAux [] lines

/-! ## UTF-8 decoding of SSID payloads -/

/-- Is the byte a UTF-8 continuation byte (128-191)? -/
def isCont (b : Nat) : Bool := decide (128 ≤ b) && decide (b ≤ 191)

/-- Lower bound for the second byte of a multi-byte UTF-8 sequence. -/
def cont2Lo (b : Nat) : Nat := if b == 224 then 160 else if b == 240 then 144 else 128

/-- Upper bound for the second byte of a multi-byte UTF-8 sequence. -/
def cont2Hi (b : Nat) : Nat := if b == 237 then 159 else if b == 244 then 143 else 191

/-- Is `c` an admissible second byte after lead byte `b`? -/
def cont2Ok (b c : Nat) : Bool := decide (cont2Lo b ≤ c) && decide (c ≤ cont2Hi b)

/-- Fuel-driven body of the ignore-errors UTF-8 decoder; the fuel only
bounds the recursion depth and is never exhausted when it is at least the
list length, since every step consumes at least one byte. -/
def utf8Aux : Nat → List Nat → List Nat
  | 0, _ => []
  | _ + 1, [] => []
  | fuel + 1, b :: rest =>
    if b < 128 then b :: utf8Aux fuel rest
    else if 194 ≤ b ∧ b ≤ 223 then
      match rest with
      | [] => []
      | c1 :: rest1 =>
        if isCont c1 then ((b - 192) * 64 + (c1 - 128)) :: utf8Aux fuel rest1
        else utf8Aux fuel rest
    else if 224 ≤ b ∧ b ≤ 239 then
      match rest with
      | [] => []
      | c1 :: rest1 =>
        if cont2Ok b c1 then
          match rest1 with
          | [] => []
          | c2 :: rest2 =>
            if isCont c2 then
              ((b - 224) * 4096 + (c1 - 128) * 64 + (c2 - 128)) :: utf8Aux fuel rest2
            else utf8Aux fuel rest1
        else utf8Aux fuel rest
    else if 240 ≤ b ∧ b ≤ 244 then
      match rest with
      | [] => []
      | c1 :: rest1 =>
        if cont2Ok b c1 then
          match rest1 with
          | [] => []
          | c2 :: rest2 =>
            if isCont c2 then
              match rest2 with
              | [] => []
              | c3 :: rest3 =>
                if isCont c3 then
                  ((b - 240) * 262144 + (c1 - 128) * 4096 + (c2 - 128) * 64 + (c3 - 128)) ::
                    utf8Aux fuel rest3
                else utf8Aux fuel rest2
            else utf8Aux fuel rest1
        else utf8Aux fuel rest
    else utf8Aux fuel rest

/-- Python `bytes.decode("utf-8", errors="ignore")`: decode to the list of
code points, dropping each malformed maximal subpart (an invalid lead byte,
or a valid prefix of a sequence followed by an out-of-range byte) and a
truncated trailing sequence. Never fails. -/
def utf8DecodeIgnore (l : List Nat) : List Nat := utf8Aux l.length l

/-- Fuel-driven body of the strict UTF-8 validity check. -/
def utf8ValidAux : Nat → List Nat → Bool
  | 0, _ => true
  | _ + 1, [] => true
  | fuel + 1, b :: rest =>
    if b < 128 then utf8ValidAux fuel rest
    else if 194 ≤ b ∧ b ≤ 223 then
      match rest with
      | [] => false
      | c1 :: rest1 => isCont c1 && utf8ValidAux fuel rest1
    else if 224 ≤ b ∧ b ≤ 239 then
      match rest with
      | [] => false
      | c1 :: rest1 =>
        cont2Ok b c1 &&
          (match rest1 with
           | [] => false
           | c2 :: rest2 => isCont c2 && utf8ValidAux fuel rest2)
    else if 240 ≤ b ∧ b ≤ 244 then
      match rest with
      | [] => false
      | c1 :: rest1 =>
        cont2Ok b c1 &&
          (match rest1 with
           | [] => false
           | c2 :: rest2 =>
             isCont c2 &&
               (match rest2 with
                | [] => false
                | c3 :: rest3 => isCont c3 && utf8ValidAux fuel rest3))
    else false

/-- Is the byte list well-formed UTF-8 (strict decoding succeeds)? -/
def utf8Valid (l : List Nat) : Bool := utf8ValidAux l.length l

/-! ## Frames, device groups and ingestion -/

/-- One decoded probe-request frame (management type 0, subtype 4; other
frames never reach the loop body), carrying exactly the fields the
ingestion loop reads. Timestamps and signal strengths are modelled as exact
integers; a missing `dBm_AntSignal` or `Channel` attribute is `none`.
`elements` is the (id, payload) list the element walk collects. -/
structure Frame where
  addr2 : String
  time : Int
  dBm_AntSignal : Option Int
  channel : Option Nat
  elements : List IE
deriving Repr, DecidableEq

/-- The `ssid_tmp` value after the element walk: the ignore-errors UTF-8
decode of the payload of the last SSID element (id 0) with non-empty
payload, if any. -/
def extractSsid (elts : List IE) : Option (List Nat) :=
  elts.foldl
    (fun acc e => if e.1 == 0 ∧ e.2 ≠ [] then some (utf8DecodeIgnore e.2) else acc)
    none

/-- One device group: the defaultdict entry keyed by the stable fingerprint. -/
structure Group where
  ies : List IE
  rate_hashes : List String
  times : List Int
  powers : List Int
  channels : List Nat
  ssids : List (List Nat)
  reals : List String
  randoms : List String
deriving Repr, DecidableEq

/-- The default-constructed entry of the defaultdict. -/
def emptyGroup : Group := ⟨[], [], [], [], [], [], [], []⟩

/-- The aggregation table `fmap`, fingerprint-keyed. -/
abbrev FMap := List (String × Group)

/-- Read the entry for a fingerprint, default-constructing a missing one. -/
def getGroup (m : FMap) (fp : String) : Group :=
  match m.find? (fun kv => kv.1 == fp) with
  | some kv => kv.2
  | none => emptyGroup

/-- Store back the (possibly new) entry for a fingerprint. -/
def setGroup : FMap → String → Group → FMap
  | [], fp, g => [(fp, g)]
  | (k, v) :: rest, fp, g =>
    if k == fp then (k, g) :: rest else (k, v) :: setGroup rest fp g

/-- The per-frame mutation of a group entry (lines 118-139): keep the first
seen element sequence, add the rate hash, append timestamp and the optional
power and channel samples, add a truthy SSID, and put the source address in
`reals` exactly when it is in the roster pool, else in `randoms`. -/
def updateGroup (realMacs : List String) (mac : String) (ies : List IE)
    (ssid : Option (List Nat)) (t : Int) (power : Option Int) (chan : Option Nat)
    (g : Group) : Group :=
  { ies := if g.ies.isEmpty then ies else g.ies
    rate_hashes := insertSet (hash_ies ies RATE_IDS) g.rate_hashes
    times := g.times ++ [t]
    powers := g.powers ++ (match power with | some p => [p] | none => [])
    channels := g.channels ++ (match chan with | some c => [c] | none => [])
    ssids := match ssid with
             | some s => if s.isEmpty then g.ssids else insertSet s g.ssids
             | none => g.ssids
    reals := if mac ∈ realMacs then insertSet mac g.reals else g.reals
    randoms := if mac ∈ realMacs then g.randoms else insertSet mac g.randoms }

/-- Ingest one frame (loop body, lines 85-139): uppercase the source
address, skip the frame when the address is empty or no elements were
collected, else update the group keyed by the stable fingerprint. -/
def ingest (realMacs : List String) (m : FMap) (pkt : Frame) : FMap :=
  let mac := pyUpper pkt.addr2
  if mac == "" then m
  else if pkt.elements.isEmpty then m
  else
    let fp := hash_ies pkt.elements STABLE_IDS
    setGroup m fp
      (updateGroup realMacs mac pkt.elements (extractSsid pkt.elements)
        pkt.time pkt.dBm_AntSignal pkt.channel (getGroup m fp))

/-- The whole ingestion pass over the capture. -/
def ingestAll (realMacs : List String) (pkts : List Frame) : FMap :=
  pkts.foldl (ingest realMacs) []

/-! ## Heuristic scoring and assignment -/

def listMaxI : List Int → Int
  | [] => 0
  | x :: xs => xs.foldl max x

def listMinI : List Int → Int
  | [] => 0
  | x :: xs => xs.foldl min x

/-- Python `set(l)` as a duplicate-free list. -/
def setOfList {α : Type} [DecidableEq α] (l : List α) : List α :=
  l.foldl (fun s c => insertSet c s) []

/-- The score the inner loop computes for a candidate pair (lines 148-179).
It reads only group-wide aggregates, so it is the same for every pair of
the group. -/
def score (g : Group) : Nat :=
  let sTime := if g.times.isEmpty then 0 else
    (let dt := |listMaxI g.times - listMinI g.times|
     if dt < 60 then 5 else if dt < 300 then 2 else 0)
  let sPow := if g.powers.isEmpty then 0 else
    (let diff := |listMaxI g.powers - listMinI g.powers|
     if diff < 5 then 3 else if diff < 15 then 1 else 0)
  let sChan := if ¬g.channels.isEmpty ∧ (setOfList g.channels).length = 1 then 2 else 0
  let sSsid := if g.ssids.isEmpty then 0 else 10
  let sRate := if g.rate_hashes.length = 1 then 2 else 0
  sTime + sPow + sChan + sSsid + 3 + sRate

/-- The `best = (real, score)` accumulator of the nested loop over
`(rand, real)` pairs (lines 145-182): a candidate replaces the best only on
a strictly greater score. -/
def bestPair (g : Group) : Option String × Nat :=
  g.randoms.foldl
    (fun best _rand =>
      g.reals.foldl
        (fun b real => if score g > b.2 then (some real, score g) else b)
        best)
    (none, 0)

/-- The assignment emitted for a group (lines 144, 184-185): the best real
address when it is truthy and the best score reaches 5, else the empty
string. -/
def assignReal (g : Group) : String :=
  match bestPair g with
  | (some r, s) => if r ≠ "" ∧ s ≥ 5 then r else ""
  | (none, _) => ""

/-! ## The scoring contributions as the spec words them -/

/-- Spec wording: time span, +5 when `max(timestamps) - min(timestamps) < 60`,
else +2 when `< 300`, else 0. -/
def specTimeSpan (g : Group) : Nat :=
  if listMaxI g.times - listMinI g.times < 60 then 5
  else if listMaxI g.times - listMinI g.times < 300 then 2 else 0

/-- Spec wording: signal spread, +3 when `max(power) - min(power) < 5`, else
+1 when `< 15`, else 0; nothing when no power samples were recorded. -/
def specSignalSpread (g : Group) : Nat :=
  if g.powers.isEmpty then 0
  else if listMaxI g.powers - listMinI g.powers < 5 then 3
  else if listMaxI g.powers - listMinI g.powers < 15 then 1 else 0

/-- Spec wording: channel consistency, +2 exactly when one distinct channel
value was observed. -/
def specChannelConsistency (g : Group) : Nat :=
  if (setOfList g.channels).length = 1 then 2 else 0

/-- Spec wording: probed-SSID presence, +10 exactly when the SSID set is
non-empty. -/
def specSsidPresence (g : Group) : Nat :=
  if g.ssids.isEmpty then 0 else 10

/-- Spec wording: rate-hash match, +2 exactly when the rate-fingerprint set
has exactly one member. -/
def specRateMatch (g : Group) : Nat :=
  if g.rate_hashes.length = 1 then 2 else 0

/-- Spec wording of the classifier bit test: an address is Randomized
exactly when the locally-administered bit (2) of its first octet (the
hex field before the first colon) is set. -/
def localBitSet (mac : String) : Bool :=
  match hexParse ((pySplit ':' mac).headD "") with
  | some fb => fb &&& 2 != 0
  | none => false


/-- The invariant behind the address partition: persistent members all come
from the roster pool, randomized members never do. -/
def GroupInv (pool : List String) (g : Group) : Prop :=
  (∀ x ∈ g.reals, x ∈ pool) ∧ (∀ x ∈ g.randoms, x ∉ pool)

/-- Every group of a map satisfies the partition invariant. -/
def MapInv (pool : List String) (m : FMap) : Prop :=
  ∀ kv ∈ m, GroupInv pool kv.2

/-! ## Concrete inputs used by witnesses and counterexamples -/

/-- One roster data row carrying the persistent station address. -/
def scenarioRoster : List String :=
  ["00:11:22:33:44:55, 2024-01-01 10:00:00, station data"]

/-- The pool the roster row above seeds. -/
def scenarioPool : List String := ["00:11:22:33:44:55"]

/-- Elements shared by the two scenario frames of spec section 8: SSID
"net", supported rates, HT capabilities, one vendor-specific element. -/
def scenarioElements : List IE :=
  [(0, [110, 101, 116]), (1, [2, 4, 11, 22]), (45, [1, 2, 3]),
   (221, [0, 80, 242, 4, 16, 74])]

/-- Scenario frame from the randomized (locally administered) address. -/
def scenarioPkt1 : Frame :=
  ⟨"02:00:00:00:00:01", 100, some (-40), some 6, scenarioElements⟩

/-- Scenario frame from the persistent address, 10 s later, 2 dBm apart. -/
def scenarioPkt2 : Frame :=
  ⟨"00:11:22:33:44:55", 110, some (-42), some 6, scenarioElements⟩

/-- The single device group the two scenario frames aggregate into. -/
def scenarioGroup : Group :=
  ((ingestAll scenarioPool [scenarioPkt1, scenarioPkt2]).headD ("", emptyGroup)).2

/-- A bit-clear source address unknown to the roster, with one element. -/
def c1Frame : Frame := ⟨"00:11:22:33:44:55", 0, none, none, [(45, [7])]⟩

/-- A frame whose SSID payload 255 65 is not valid UTF-8. -/
def c8Frame : Frame :=
  ⟨"aa:bb:cc:dd:ee:01", 0, none, none, [(0, [255, 65]), (45, [7])]⟩

/-- A group whose aggregates sum to score 4: span 400 s (+0), power spread
10 dBm (+1), two channels (+0), no SSID (+0), fingerprint (+3), two rate
hashes (+0). -/
def groupScore4 : Group :=
  ⟨[(45, [1])], ["a", "b"], [0, 400], [0, 10], [1, 2], [],
   ["00:11:22:33:44:55"], ["02:00:00:00:00:01"]⟩

/-- A group whose aggregates sum to score 5: span 400 s (+0), power spread
20 dBm (+0), two channels (+0), no SSID (+0), fingerprint (+3), one rate
hash (+2). -/
def groupScore5 : Group :=
  ⟨[(45, [1])], ["a"], [0, 400], [0, 20], [1, 2], [],
   ["00:11:22:33:44:55"], ["02:00:00:00:00:01"]⟩

/-- A group with a persistent candidate and strong aggregates (score 25)
but no randomized address. -/
def groupNoRandoms : Group :=
  ⟨[(45, [1])], ["a"], [0, 10], [-40, -42], [6, 6], [[110]],
   ["00:11:22:33:44:55"], []⟩

/-- Four elements in one arrival order. -/
def permA : List IE :=
  [(45, [1, 2]), (221, [9, 9, 9, 9, 9]), (1, [2]), (45, [1, 1])]

/-- The same four elements in another arrival order. -/
def permB : List IE :=
  [(1, [2]), (45, [1, 1]), (45, [1, 2]), (221, [9, 9, 9, 9, 9])]

/-! ## The tuple order is a linear order; sorting is canonical -/

theorem byteLe_total (x : List Nat) : ∀ y, byteLe x y = true ∨ byteLe y x = true := by
  induction x with
  | nil => intro y; left; rfl
  | cons a xs ih =>
    intro y
    cases y with
    | nil => right; rfl
    | cons b ys =>
      by_cases hab : a < b
      · left; simp [byteLe, hab]
      · by_cases hba : b < a
        · right; simp [byteLe, hba]
        · have hEq : a = b := by omega
          subst hEq
          rcases ih ys with h | h
          · left; simpa [byteLe] using h
          · right; simpa [byteLe] using h

theorem byteLe_trans (x : List Nat) :
    ∀ y z, byteLe x y = true → byteLe y z = true → byteLe x z = true := by
  induction x with
  | nil => intro y z _ _; rfl
  | cons a xs ih =>
    intro y z h1 h2
    cases y with
    | nil => simp [byteLe] at h1
    | cons b ys =>
      cases z with
      | nil => simp [byteLe] at h2
      | cons c zs =>
        by_cases hab : a < b
        · by_cases hbc : b < c
          · have hac : a < c := Nat.lt_trans hab hbc
            simp [byteLe, hac]
          · by_cases hcb : c < b
            · simp [byteLe, hbc, hcb] at h2
            · have hEq : b = c := by omega
              subst hEq
              simp [byteLe, hab]
        · by_cases hba : b < a
          · simp [byteLe, hab, hba] at h1
          · have hEq : a = b := by omega
            subst hEq
            by_cases hbc : a < c
            · simp [byteLe, hbc]
            · by_cases hcb : c < a
              · simp [byteLe, hbc, hcb] at h2
              · have hEq2 : a = c := by omega
                subst hEq2
                simp only [byteLe, Nat.lt_irrefl, if_false] at h1 h2 ⊢
                exact ih ys zs h1 h2

theorem byteLe_antisymm (x : List Nat) :
    ∀ y, byteLe x y = true → byteLe y x = true → x = y := by
  induction x with
  | nil =>
    intro y _ h2
    cases y with
    | nil => rfl
    | cons b ys => simp [byteLe] at h2
  | cons a xs ih =>
    intro y h1 h2
    cases y with
    | nil => simp [byteLe] at h1
    | cons b ys =>
      by_cases hab : a < b
      · have hba : ¬b < a := by omega
        simp [byteLe, hab, hba] at h2
      · by_cases hba : b < a
        · simp [byteLe, hab, hba] at h1
        · have hEq : a = b := by omega
          subst hEq
          simp only [byteLe, Nat.lt_irrefl, if_false] at h1 h2
          exact congrArg (a :: ·) (ih ys h1 h2)

theorem ieLe_total_or (x y : IE) : ieLe x y = true ∨ ieLe y x = true := by
  by_cases h1 : x.1 < y.1
  · left; simp [ieLe, h1]
  · by_cases h2 : y.1 < x.1
    · right; simp [ieLe, h2]
    · rcases byteLe_total x.2 y.2 with h | h
      · left; simp [ieLe, h1, h2, h]
      · right; simp [ieLe, h1, h2, h]

theorem ieLe_total (x y : IE) : (ieLe x y || ieLe y x) = true := by
  rcases ieLe_total_or x y with h | h <;> simp [h]

theorem ieLe_trans (x y z : IE) :
    ieLe x y = true → ieLe y z = true → ieLe x z = true := by
  intro h1 h2
  by_cases hxy : x.1 < y.1 <;> by_cases hyz : y.1 < z.1
  · simp [ieLe, Nat.lt_trans hxy hyz]
  · by_cases hzy : z.1 < y.1
    · simp [ieLe, hyz, hzy] at h2
    · have hxz : x.1 < z.1 := by omega
      simp [ieLe, hxz]
  · simp only [ieLe, hxy, if_false] at h1
    by_cases hyx : y.1 < x.1
    · simp [hyx] at h1
    · have hxz : x.1 < z.1 := by omega
      simp [ieLe, hxz]
  · by_cases hyx : y.1 < x.1
    · simp [ieLe, hxy, hyx] at h1
    · by_cases hzy : z.1 < y.1
      · simp [ieLe, hyz, hzy] at h2
      · have hEq1 : x.1 = y.1 := by omega
        have hEq2 : y.1 = z.1 := by omega
        simp only [ieLe, hxy, hyx, hyz, hzy, if_false] at h1 h2
        have hxz1 : ¬x.1 < z.1 := by omega
        have hxz2 : ¬z.1 < x.1 := by omega
        simp only [ieLe, hxz1, hxz2, if_false]
        exact byteLe_trans x.2 y.2 z.2 h1 h2

theorem ieLe_antisymm (x y : IE) :
    ieLe x y = true → ieLe y x = true → x = y := by
  intro h1 h2
  by_cases hxy : x.1 < y.1
  · simp [ieLe, hxy] at h2
    omega
  · by_cases hyx : y.1 < x.1
    · simp [ieLe, hxy, hyx] at h1
    · have hEq : x.1 = y.1 := by omega
      simp only [ieLe, hxy, hyx, if_false] at h1 h2
      have hEq2 : x.2 = y.2 := byteLe_antisymm x.2 y.2 h1 h2
      exact Prod.ext hEq hEq2

theorem insertSorted_perm (x : IE) (l : List IE) :
    (insertSorted x l).Perm (x :: l) := by
  induction l with
  | nil => exact List.Perm.refl _
  | cons y ys ih =>
    by_cases h : ieLe x y
    · simp only [insertSorted, h, if_true]
      exact List.Perm.refl _
    · simp only [insertSorted, h, Bool.false_eq_true, if_false]
      exact (List.Perm.cons y ih).trans (List.Perm.swap x y ys)

theorem sortIEs_perm (ies : List IE) : (sortIEs ies).Perm ies := by
  induction ies with
  | nil => exact List.Perm.refl _
  | cons a l ih =>
    exact (insertSorted_perm a (sortIEs l)).trans (List.Perm.cons a ih)

theorem mem_insertSorted {z x : IE} {l : List IE}
    (h : z ∈ insertSorted x l) : z = x ∨ z ∈ l :=
  List.mem_cons.mp ((insertSorted_perm x l).mem_iff.mp h)

theorem insertSorted_sorted (x : IE) (l : List IE)
    (h : List.Pairwise (fun a b => ieLe a b = true) l) :
    List.Pairwise (fun a b => ieLe a b = true) (insertSorted x l) := by
  induction l with
  | nil => simp [insertSorted]
  | cons y ys ih =>
    rcases List.pairwise_cons.mp h with ⟨hy, hys⟩
    by_cases hxy : ieLe x y
    · simp only [insertSorted, hxy, if_true]
      refine List.pairwise_cons.mpr ⟨?_, h⟩
      intro z hz
      rcases List.mem_cons.mp hz with rfl | hz2
      · exact hxy
      · exact ieLe_trans x y z hxy (hy z hz2)
    · simp only [insertSorted, hxy, Bool.false_eq_true, if_false]
      refine List.pairwise_cons.mpr ⟨?_, ih hys⟩
      intro z hz
      rcases mem_insertSorted hz with rfl | hz2
      · rcases ieLe_total_or z y with hh | hh
        · exact absurd hh hxy
        · exact hh
      · exact hy z hz2

theorem sortIEs_sorted (ies : List IE) :
    List.Pairwise (fun a b => ieLe a b = true) (sortIEs ies) := by
  induction ies with
  | nil => simp [sortIEs]
  | cons a l ih => exact insertSorted_sorted a (sortIEs l) ih

theorem sortIEs_eq_of_perm {l l2 : List IE} (h : l.Perm l2) :
    sortIEs l = sortIEs l2 := by
  haveI : IsAntisymm IE (fun a b => ieLe a b = true) :=
    ⟨fun a b => ieLe_antisymm a b⟩
  exact List.eq_of_perm_of_sorted
    ((sortIEs_perm l).trans (h.trans (sortIEs_perm l2).symm))
    (sortIEs_sorted l) (sortIEs_sorted l2)

theorem rawStream_eq_of_perm {l l2 : List IE} (ids : List Nat) (h : l.Perm l2) :
    rawStream l ids = rawStream l2 ids := by
  unfold rawStream
  rw [sortIEs_eq_of_perm h]

/-! ## Aggregate statistics -/

theorem foldl_min_le (xs : List Int) : ∀ x : Int, xs.foldl min x ≤ x := by
  induction xs with
  | nil => intro x; exact le_refl x
  | cons y ys ih =>
    intro x
    calc List.foldl min (min x y) ys ≤ min x y := ih (min x y)
      _ ≤ x := min_le_left x y

theorem le_foldl_max (xs : List Int) : ∀ x : Int, x ≤ xs.foldl max x := by
  induction xs with
  | nil => intro x; exact le_refl x
  | cons y ys ih =>
    intro x
    calc x ≤ max x y := le_max_left x y
      _ ≤ List.foldl max (max x y) ys := ih (max x y)

theorem listMinI_le_listMaxI (l : List Int) (h : l ≠ []) :
    listMinI l ≤ listMaxI l := by
  cases l with
  | nil => exact absurd rfl h
  | cons x xs =>
    calc listMinI (x :: xs) = xs.foldl min x := rfl
      _ ≤ x := foldl_min_le xs x
      _ ≤ xs.foldl max x := le_foldl_max xs x
      _ = listMaxI (x :: xs) := rfl

theorem score_eq_spec_sum (g : Group) (h : g.times ≠ []) :
    score g = specTimeSpan g + specSignalSpread g + specChannelConsistency g +
      specSsidPresence g + 3 + specRateMatch g := by
  have hie : g.times.isEmpty = false := by
    cases htimes : g.times with
    | nil => exact absurd htimes h
    | cons t ts => rfl
  have ht : listMinI g.times ≤ listMaxI g.times := listMinI_le_listMaxI _ h
  have habs : |listMaxI g.times - listMinI g.times| =
      listMaxI g.times - listMinI g.times := abs_of_nonneg (by omega)
  have hchan : (if ¬g.channels.isEmpty ∧ (setOfList g.channels).length = 1
      then 2 else 0) = specChannelConsistency g := by
    cases hc : g.channels with
    | nil => simp [specChannelConsistency, hc, setOfList]
    | cons c cs => simp [specChannelConsistency, hc]
  by_cases hp : g.powers.isEmpty
  · simp only [score, specTimeSpan, specSignalSpread, hie, hp, habs, hchan,
      Bool.false_eq_true, if_false, if_true, specSsidPresence, specRateMatch]
  · have hpne : g.powers ≠ [] := fun hh => hp (by rw [hh]; rfl)
    have hpl : listMinI g.powers ≤ listMaxI g.powers := listMinI_le_listMaxI _ hpne
    have habs2 : |listMaxI g.powers - listMinI g.powers| =
        listMaxI g.powers - listMinI g.powers := abs_of_nonneg (by omega)
    have hpf : g.powers.isEmpty = false := by
      cases hpw : g.powers with
      | nil => exact absurd hpw hpne
      | cons p ps => rfl
    simp only [score, specTimeSpan, specSignalSpread, hie, hpf, habs, habs2,
      hchan, Bool.false_eq_true, if_false, specSsidPresence, specRateMatch]

/-! ## The best-pair accumulator -/

theorem score_ge_three (g : Group) : 3 ≤ score g := by
  simp only [score]
  omega

theorem foldl_best_keep (g : Group) (e : String) (l : List String) :
    l.foldl (fun b real => if score g > b.2 then (some real, score g) else b)
      ((some e, score g) : Option String × Nat) = (some e, score g) := by
  induction l with
  | nil => rfl
  | cons r rs ih =>
    have hstep : (if score g > ((some e, score g) : Option String × Nat).2
        then ((some r, score g) : Option String × Nat)
        else (some e, score g)) = (some e, score g) := by
      simp
    simp only [List.foldl, hstep]
    exact ih

theorem foldl_inner_start (g : Group) (e : String) (es : List String)
    (he : g.reals = e :: es) :
    g.reals.foldl
      (fun b real => if score g > b.2 then (some real, score g) else b)
      ((none, 0) : Option String × Nat) = (some e, score g) := by
  rw [he]
  have h3 := score_ge_three g
  have hstep : (if score g > ((none, 0) : Option String × Nat).2
      then ((some e, score g) : Option String × Nat) else (none, 0))
      = (some e, score g) := by
    have hpos : 0 < score g := by omega
    simp [hpos]
  simp only [List.foldl, hstep]
  exact foldl_best_keep g e es

theorem foldl_id {α β : Type} (l : List α) (b : β) :
    l.foldl (fun x _ => x) b = b := by
  induction l with
  | nil => rfl
  | cons a xs ih => exact ih

theorem outer_keep (g : Group) (e : String) (rs : List String) :
    rs.foldl
      (fun best _rand => g.reals.foldl
        (fun b real => if score g > b.2 then (some real, score g) else b) best)
      ((some e, score g) : Option String × Nat) = (some e, score g) := by
  induction rs with
  | nil => rfl
  | cons r rr ih =>
    simp only [List.foldl, foldl_best_keep]
    exact ih

theorem bestPair_eq (g : Group) (hr : g.randoms ≠ []) (he : g.reals ≠ []) :
    bestPair g = (some (g.reals.headD ""), score g) := by
  obtain ⟨r, rs, hrand⟩ := List.exists_cons_of_ne_nil hr
  obtain ⟨e, es, hreal⟩ := List.exists_cons_of_ne_nil he
  have hhead : g.reals.headD "" = e := by rw [hreal]; rfl
  rw [hhead]
  simp only [bestPair, hrand, List.foldl]
  rw [foldl_inner_start g e es hreal]
  exact outer_keep g e rs

theorem bestPair_no_randoms (g : Group) (hr : g.randoms = []) :
    bestPair g = (none, 0) := by
  simp only [bestPair, hr, List.foldl]

theorem bestPair_no_reals (g : Group) (he : g.reals = []) :
    bestPair g = (none, 0) := by
  simp only [bestPair, he, List.foldl_nil]
  exact foldl_id g.randoms (none, 0)

/-! ## The classifier bit test and the roster pool -/

theorem processRosterLine_bit_clear (line : String) (mac : String)
    (h : processRosterLine line = Except.ok (some mac)) :
    localBitSet mac = false := by
  simp only [processRosterLine] at h
  split at h
  · exact absurd h (by simp)
  · split at h
    · exact absurd h (by simp)
    · rename_i fb heq
      split at h
      · rename_i hbit
        have hmac : mac = pyUpper (((pySplit ',' line).map pyStrip).headD "") := by
          cases h
          rfl
        subst hmac
        simp only [localBitSet, heq]
        simpa using hbit
      · exact absurd h (by simp)

theorem mem_insertSet {α : Type} [DecidableEq α] {x y : α} {s : List α}
    (h : x ∈ insertSet y s) : x = y ∨ x ∈ s := by
  unfold insertSet at h
  by_cases hm : y ∈ s
  · simp [hm] at h
    right
    exact h
  · simp [hm] at h
    rcases h with h | h
    · right; exact h
    · left; exact h

theorem self_mem_insertSet {α : Type} [DecidableEq α] (x : α) (s : List α) :
    x ∈ insertSet x s := by
  unfold insertSet
  by_cases hm : x ∈ s
  · simp [hm]
  · simp [hm]

theorem realMacsAux_bit_clear :
    ∀ (lines acc pool : List String),
      (∀ m ∈ acc, localBitSet m = false) →
      realMacsAux acc lines = Except.ok pool →
      ∀ m ∈ pool, localBitSet m = false := by
  intro lines
  induction lines with
  | nil =>
    intro acc pool hacc h
    simp only [realMacsAux] at h
    cases h
    exact hacc
  | cons line rest ih =>
    intro acc pool hacc h
    simp only [realMacsAux] at h
    split at h
    · exact absurd h (by simp)
    · exact ih acc pool hacc h
    · rename_i mac heq
      refine ih (insertSet mac acc) pool ?_ h
      intro m hm
      rcases mem_insertSet hm with rfl | hm2
      · exact processRosterLine_bit_clear line m heq
      · exact hacc m hm2

theorem real_macs_bit_clear (lines pool : List String)
    (h : real_macs lines = Except.ok pool) :
    ∀ m ∈ pool, localBitSet m = false :=
  realMacsAux_bit_clear lines [] pool (by simp) h

/-! ## Map update lemmas and the partition invariant -/

theorem getGroup_setGroup (m : FMap) (fp : String) (g : Group) :
    getGroup (setGroup m fp g) fp = g := by
  induction m with
  | nil => simp [setGroup, getGroup, List.find?]
  | cons kv rest ih =>
    obtain ⟨k, v⟩ := kv
    by_cases hk : k == fp
    · simp [setGroup, hk, getGroup, List.find?]
    · simp only [setGroup, hk, Bool.false_eq_true, if_false, getGroup,
        List.find?]
      exact ih

theorem mem_setGroup {m : FMap} {fp k : String} {g v : Group}
    (h : (k, v) ∈ setGroup m fp g) : (k, v) ∈ m ∨ v = g := by
  induction m with
  | nil =>
    simp only [setGroup, List.mem_singleton, Prod.mk.injEq] at h
    right
    exact h.2
  | cons kv rest ih =>
    obtain ⟨k2, v2⟩ := kv
    simp only [setGroup] at h
    by_cases hk : k2 == fp
    · simp only [hk, if_true, List.mem_cons, Prod.mk.injEq] at h
      rcases h with h | h
      · right; exact h.2
      · left; exact List.mem_cons_of_mem _ h
    · simp only [hk, Bool.false_eq_true, if_false, List.mem_cons] at h
      rcases h with h | h
      · left
        rw [h]
        exact List.mem_cons_self _ _
      · rcases ih h with h2 | h2
        · left; exact List.mem_cons_of_mem _ h2
        · right; exact h2

theorem getGroup_cases (m : FMap) (fp : String) :
    getGroup m fp = emptyGroup ∨ ∃ k, (k, getGroup m fp) ∈ m := by
  unfold getGroup
  cases hf : List.find? (fun kv => kv.1 == fp) m with
  | none => left; rfl
  | some kv =>
    right
    refine ⟨kv.1, ?_⟩
    have hmem := List.mem_of_find?_eq_some hf
    simpa using hmem

theorem groupInv_empty (pool : List String) : GroupInv pool emptyGroup := by
  constructor <;> intro x hx <;> simp [emptyGroup] at hx

theorem groupInv_update (pool : List String) (mac : String) (ies : List IE)
    (ssid : Option (List Nat)) (t : Int) (pw : Option Int) (ch : Option Nat)
    (g : Group) (h : GroupInv pool g) :
    GroupInv pool (updateGroup pool mac ies ssid t pw ch g) := by
  obtain ⟨h1, h2⟩ := h
  by_cases hm : mac ∈ pool
  · constructor
    · intro x hx
      simp only [updateGroup, hm, if_pos] at hx
      rcases mem_insertSet hx with rfl | hx2
      · exact hm
      · exact h1 x hx2
    · intro x hx
      simp only [updateGroup, hm, if_pos] at hx
      exact h2 x hx
  · constructor
    · intro x hx
      simp only [updateGroup, hm, if_neg, if_false] at hx
      exact h1 x hx
    · intro x hx
      simp only [updateGroup, hm, if_neg, if_false] at hx
      rcases mem_insertSet hx with rfl | hx2
      · exact hm
      · exact h2 x hx2

theorem mapInv_ingest (pool : List String) (m : FMap) (pkt : Frame)
    (h : MapInv pool m) : MapInv pool (ingest pool m pkt) := by
  unfold ingest
  by_cases h1 : pyUpper pkt.addr2 == ""
  · simpa [h1] using h
  · by_cases h2 : pkt.elements.isEmpty
    · simpa [h1, h2] using h
    · simp only [h1, h2, Bool.false_eq_true, if_false]
      intro kv hkv
      obtain ⟨k, v⟩ := kv
      rcases mem_setGroup hkv with hold | hnew
      · exact h _ hold
      · rw [hnew]
        apply groupInv_update
        rcases getGroup_cases m (hash_ies pkt.elements STABLE_IDS) with he | ⟨k2, hk2⟩
        · rw [he]; exact groupInv_empty pool
        · exact h _ hk2

theorem mapInv_ingestAll (pool : List String) (pkts : List Frame) :
    MapInv pool (ingestAll pool pkts) := by
  unfold ingestAll
  suffices hgen : ∀ m, MapInv pool m → MapInv pool (pkts.foldl (ingest pool) m) by
    apply hgen
    intro kv hkv
    simp at hkv
  induction pkts with
  | nil => intro m hm; exact hm
  | cons p ps ih =>
    intro m hm
    exact ih (ingest pool m p) (mapInv_ingest pool m p hm)

theorem ingest_classifies (pool : List String) (m : FMap) (pkt : Frame)
    (h1 : (pyUpper pkt.addr2 == "") = false) (h2 : pkt.elements.isEmpty = false) :
    (pyUpper pkt.addr2 ∈ pool →
      pyUpper pkt.addr2 ∈
        (getGroup (ingest pool m pkt) (hash_ies pkt.elements STABLE_IDS)).reals) ∧
    (pyUpper pkt.addr2 ∉ pool →
      pyUpper pkt.addr2 ∈
        (getGroup (ingest pool m pkt) (hash_ies pkt.elements STABLE_IDS)).randoms) := by
  unfold ingest
  simp only [h1, h2, Bool.false_eq_true, if_false]
  rw [getGroup_setGroup]
  constructor
  · intro hm
    simp only [updateGroup, hm, if_pos]
    exact self_mem_insertSet _ _
  · intro hm
    simp only [updateGroup, hm, if_neg, if_false]
    exact self_mem_insertSet _ _

set_option maxRecDepth 100000

/-! ## The claims -/

/-- C4: for every element sequence, permuting the (id, payload) pairs before
hashing, with either the stable id set or the rate id set, yields an
identical hex digest. -/
theorem claim_C4_digest_order_invariance (ies ies2 : List IE)
    (h : ies.Perm ies2) :
    hash_ies ies STABLE_IDS = hash_ies ies2 STABLE_IDS ∧
    hash_ies ies RATE_IDS = hash_ies ies2 RATE_IDS := by
  unfold hash_ies
  rw [rawStream_eq_of_perm STABLE_IDS h, rawStream_eq_of_perm RATE_IDS h]
  exact ⟨rfl, rfl⟩

/-- Witness for C4 at a concrete four-element permutation. -/
theorem claim_C4_witness :
    hash_ies permA STABLE_IDS = hash_ies permB STABLE_IDS ∧
    hash_ies permA RATE_IDS = hash_ies permB RATE_IDS :=
  claim_C4_digest_order_invariance permA permB (by decide)

/-- C5 counterexample: two selected elements share id 45 with payloads [2]
then [1]; their contributions to the hashed byte stream appear in payload
order [45,1,45,2], not in the arrival order [45,2,45,1], refuting the
claimed stable (arrival-order-preserving) sort on equal ids. -/
theorem claim_C5_counterexample :
    rawStream [(45, [2]), (45, [1])] STABLE_IDS = [45, 1, 45, 2] ∧
    rawStream [(45, [2]), (45, [1])] STABLE_IDS ≠ [45, 2, 45, 1] :=
  ⟨by decide, by decide⟩

/-- C5 amended: the digest computation orders the elements by the full
(id, payload) tuple order — by id ascending and, on equal ids, by payload
bytes ascending — over a permutation of the input; elements identical in
both id and payload are interchangeable, so the result is deterministic. -/
theorem claim_C5_amended (ies : List IE) :
    (sortIEs ies).Perm ies ∧
    List.Pairwise (fun a b => ieLe a b = true) (sortIEs ies) :=
  ⟨sortIEs_perm ies, sortIEs_sorted ies⟩

/-- C6: an id-221 element contributes its id byte followed by at most the
first 4 payload bytes: two payloads agreeing on their first 4 bytes
contribute identically, and a payload of at most 4 bytes contributes all
its bytes. -/
theorem claim_C6_vendor_truncation :
    (∀ p q : List Nat, p.take 4 = q.take 4 →
      ieContrib STABLE_IDS (221, p) = ieContrib STABLE_IDS (221, q)) ∧
    (∀ p : List Nat, p.length ≤ 4 → ieContrib STABLE_IDS (221, p) = 221 :: p) := by
  constructor
  · intro p q h
    simp [ieContrib, STABLE_IDS, h]
  · intro p h
    simp [ieContrib, STABLE_IDS, List.take_of_length_le h]

/-- Witness for C6: payload lengths 0, 1, 3, 4 and 10 all compute, and the
10-byte payload and its 4-byte prefix give the same contribution and the
same digest. -/
theorem claim_C6_witness :
    ieContrib STABLE_IDS (221, [1, 2, 3, 4, 5, 6, 7, 8, 9, 10]) =
      ieContrib STABLE_IDS (221, [1, 2, 3, 4]) ∧
    hash_ies [(221, [1, 2, 3, 4, 5, 6, 7, 8, 9, 10])] STABLE_IDS =
      hash_ies [(221, [1, 2, 3, 4])] STABLE_IDS ∧
    ieContrib STABLE_IDS (221, []) = [221] ∧
    ieContrib STABLE_IDS (221, [9]) = [221, 9] ∧
    ieContrib STABLE_IDS (221, [7, 8, 9]) = [221, 7, 8, 9] ∧
    ieContrib STABLE_IDS (221, [1, 2, 3, 4]) = [221, 1, 2, 3, 4] :=
  ⟨claim_C6_vendor_truncation.1 _ _ (by decide),
   congrArg sha256hex (by decide),
   claim_C6_vendor_truncation.2 [] (by decide),
   claim_C6_vendor_truncation.2 [9] (by decide),
   claim_C6_vendor_truncation.2 [7, 8, 9] (by decide),
   claim_C6_vendor_truncation.2 [1, 2, 3, 4] (by decide)⟩

/-- C10: a group with no randomized address gets the empty assignment and
the default best pair, whatever its persistent candidates and aggregates. -/
theorem claim_C10_no_randoms_no_assignment (g : Group) (hr : g.randoms = []) :
    assignReal g = "" ∧ bestPair g = (none, 0) := by
  have hb := bestPair_no_randoms g hr
  constructor
  · simp only [assignReal, hb]
  · exact hb

/-- Witness for C10: a group with a persistent candidate and aggregates
that would score 25 still yields an empty assignment. -/
theorem claim_C10_witness :
    assignReal groupNoRandoms = "" ∧ bestPair groupNoRandoms = (none, 0) ∧
    5 ≤ score groupNoRandoms ∧ groupNoRandoms.reals ≠ [] :=
  ⟨(claim_C10_no_randoms_no_assignment groupNoRandoms rfl).1,
   (claim_C10_no_randoms_no_assignment groupNoRandoms rfl).2,
   by decide, by decide⟩

/-- C1 counterexample: with an empty roster pool, the frame from the
bit-clear address 00:11:22:33:44:55 — Persistent by the claimed bit test —
is added to the group's randomized set and not to its persistent set, so
ingestion-time classification is not the bit test and does depend on the
roster-derived pool. -/
theorem claim_C1_counterexample :
    localBitSet "00:11:22:33:44:55" = false ∧
    (ingestAll [] [c1Frame]).map (fun kv => kv.2.randoms) =
      [["00:11:22:33:44:55"]] ∧
    (ingestAll [] [c1Frame]).map (fun kv => kv.2.reals) = [[]] :=
  ⟨by decide, by decide, by decide⟩

/-- C1 amended: ingestion-time classification tests membership in the
roster-derived pool: a pool address goes to the persistent set, any other
address to the randomized set; since every pool address has the 2 bit
clear, an address with the bit set (such as 02:00:00:00:00:01) always goes
to the randomized set, and 00:11:22:33:44:55 goes to the persistent set
exactly when the roster listed it. -/
theorem claim_C1_amended (lines pool : List String) (m : FMap) (pkt : Frame)
    (hpool : real_macs lines = Except.ok pool)
    (h1 : (pyUpper pkt.addr2 == "") = false)
    (h2 : pkt.elements.isEmpty = false) :
    (pyUpper pkt.addr2 ∈ pool →
      pyUpper pkt.addr2 ∈
        (getGroup (ingest pool m pkt) (hash_ies pkt.elements STABLE_IDS)).reals) ∧
    (pyUpper pkt.addr2 ∉ pool →
      pyUpper pkt.addr2 ∈
        (getGroup (ingest pool m pkt) (hash_ies pkt.elements STABLE_IDS)).randoms) ∧
    (localBitSet (pyUpper pkt.addr2) = true →
      pyUpper pkt.addr2 ∈
        (getGroup (ingest pool m pkt) (hash_ies pkt.elements STABLE_IDS)).randoms) := by
  obtain ⟨hin, hout⟩ := ingest_classifies pool m pkt h1 h2
  refine ⟨hin, hout, ?_⟩
  intro hbit
  apply hout
  intro hmem
  have hclear := real_macs_bit_clear lines pool hpool _ hmem
  exact absurd (hbit.symm.trans hclear) (by decide)

/-- Witness for amended C1: the rostered persistent address lands in the
persistent set, the locally-administered one in the randomized set. -/
theorem claim_C1_witness :
    pyUpper scenarioPkt2.addr2 ∈
      (getGroup (ingest scenarioPool [] scenarioPkt2)
        (hash_ies scenarioPkt2.elements STABLE_IDS)).reals ∧
    pyUpper scenarioPkt1.addr2 ∈
      (getGroup (ingest scenarioPool [] scenarioPkt1)
        (hash_ies scenarioPkt1.elements STABLE_IDS)).randoms :=
  ⟨(claim_C1_amended scenarioRoster scenarioPool [] scenarioPkt2
      rfl (by decide) (by decide)).1 (by decide),
   (claim_C1_amended scenarioRoster scenarioPool [] scenarioPkt1
      rfl (by decide) (by decide)).2.2 (by decide)⟩

/-- C2: for every device group the pair score is the sum of exactly the six
contributions taken over group-wide aggregates, and the section-8 scenario
group scores 25. -/
theorem claim_C2_score_decomposition :
    (∀ g : Group, g.times ≠ [] →
      score g = specTimeSpan g + specSignalSpread g + specChannelConsistency g +
        specSsidPresence g + 3 + specRateMatch g) ∧
    score scenarioGroup = 25 :=
  ⟨score_eq_spec_sum, by decide⟩

/-- Witness for C2 at the scenario group. -/
theorem claim_C2_witness :
    scenarioGroup.times ≠ [] ∧
    score scenarioGroup = specTimeSpan scenarioGroup +
      specSignalSpread scenarioGroup + specChannelConsistency scenarioGroup +
      specSsidPresence scenarioGroup + 3 + specRateMatch scenarioGroup :=
  ⟨by decide, claim_C2_score_decomposition.1 scenarioGroup (by decide)⟩

/-- C3: an assignment is made if and only if the group has both a candidate
pair and score at least 5; since every pair of a group scores alike, ties
never replace the running best, so the assigned address is the first
persistent candidate. -/
theorem claim_C3_threshold_assignment (g : Group) (hnb : "" ∉ g.reals) :
    (assignReal g ≠ "" ↔ g.randoms ≠ [] ∧ g.reals ≠ [] ∧ 5 ≤ score g) ∧
    (assignReal g ≠ "" → assignReal g = g.reals.headD "") := by
  by_cases hr : g.randoms = []
  · have hb := bestPair_no_randoms g hr
    have ha : assignReal g = "" := by simp only [assignReal, hb]
    exact ⟨⟨fun hcon => absurd ha hcon, fun ⟨h1, _, _⟩ => absurd hr h1⟩,
           fun hcon => absurd ha hcon⟩
  · by_cases he : g.reals = []
    · have hb := bestPair_no_reals g he
      have ha : assignReal g = "" := by simp only [assignReal, hb]
      exact ⟨⟨fun hcon => absurd ha hcon, fun ⟨_, h2, _⟩ => absurd he h2⟩,
             fun hcon => absurd ha hcon⟩
    · have hb := bestPair_eq g hr he
      obtain ⟨e, es, hre⟩ := List.exists_cons_of_ne_nil he
      have hmem : g.reals.headD "" ∈ g.reals := by
        rw [hre]
        exact List.mem_cons_self e es
      have hne : g.reals.headD "" ≠ "" := fun hh => hnb (hh ▸ hmem)
      have ha : assignReal g =
          if g.reals.headD "" ≠ "" ∧ score g ≥ 5 then g.reals.headD ""
          else "" := by
        simp only [assignReal, hb]
      by_cases hs : 5 ≤ score g
      · have ha2 : assignReal g = g.reals.headD "" := by
          rw [ha, if_pos ⟨hne, hs⟩]
        exact ⟨⟨fun _ => ⟨hr, he, hs⟩, fun _ => ha2 ▸ hne⟩, fun _ => ha2⟩
      · have ha2 : assignReal g = "" := by
          rw [ha, if_neg]
          rintro ⟨_, hs2⟩
          exact hs hs2
        exact ⟨⟨fun hcon => absurd ha2 hcon, fun ⟨_, _, hs2⟩ => absurd hs2 hs⟩,
               fun hcon => absurd ha2 hcon⟩

/-- Witness for C3: a score-5 group is assigned its first persistent
candidate, a score-4 group is not assigned. -/
theorem claim_C3_witness :
    assignReal groupScore5 = "00:11:22:33:44:55" ∧ assignReal groupScore4 = "" := by
  constructor
  · have h5 := claim_C3_threshold_assignment groupScore5 (by decide)
    have hne : assignReal groupScore5 ≠ "" :=
      h5.1.mpr ⟨by decide, by decide, by decide⟩
    have := h5.2 hne
    rw [this]
    decide
  · have h4 := claim_C3_threshold_assignment groupScore4 (by decide)
    by_contra hne
    have hc := h4.1.mp hne
    have hsc : score groupScore4 = 4 := by decide
    rw [hsc] at hc
    exact absurd hc.2.2 (by decide)

/-- C7 counterexample: a roster row whose 17-character first field is not
colon-hex (all G characters) makes pool construction fail with an error
instead of being silently skipped. -/
theorem claim_C7_counterexample :
    real_macs ["GGGGGGGGGGGGGGGGG, station data"] = Except.error () := rfl

/-- C7 amended: a roster row whose first field does not have exactly 17
characters is silently skipped; every address the seeding adds has the
locally-administered bit clear; but an error (a raised ValueError) is
possible and happens only on rows whose first field has exactly 17
characters (with a non-hex prefix before the first colon). -/
theorem claim_C7_amended :
    (∀ line : String,
      (((pySplit ',' line).map pyStrip).headD "").data.length ≠ 17 →
      processRosterLine line = Except.ok none) ∧
    (∀ line mac, processRosterLine line = Except.ok (some mac) →
      localBitSet mac = false) ∧
    (∀ line : String, processRosterLine line = Except.error () →
      (((pySplit ',' line).map pyStrip).headD "").data.length = 17) := by
  refine ⟨?_, ?_, ?_⟩
  · intro line h
    simp only [processRosterLine]
    rw [if_pos (Or.inr h)]
  · exact fun line mac h => processRosterLine_bit_clear line mac h
  · intro line h
    by_cases hlen : (((pySplit ',' line).map pyStrip).headD "").data.length = 17
    · exact hlen
    · simp only [processRosterLine] at h
      rw [if_pos (Or.inr hlen)] at h
      exact absurd h (by simp)

/-- Witness for amended C7: a short first field is skipped without error,
and a well-formed row contributes its bit-clear address. -/
theorem claim_C7_witness :
    processRosterLine "Station MAC, First time seen" = Except.ok none ∧
    processRosterLine "00:11:22:33:44:55, 2024-01-01 10:00:00, station data" =
      Except.ok (some "00:11:22:33:44:55") ∧
    localBitSet "00:11:22:33:44:55" = false :=
  ⟨claim_C7_amended.1 "Station MAC, First time seen" (by decide),
   rfl,
   claim_C7_amended.2.1 "00:11:22:33:44:55, 2024-01-01 10:00:00, station data"
     "00:11:22:33:44:55" rfl⟩

/-- C8 counterexample: the SSID payload 255 65 is not valid UTF-8, yet
ingestion adds the decoded remainder "A" to the group's SSID set rather
than treating the SSID as absent. -/
theorem claim_C8_counterexample :
    utf8Valid [255, 65] = false ∧
    (ingestAll [] [c8Frame]).map (fun kv => kv.2.ssids) = [[[65]]] :=
  ⟨by decide, by decide⟩

/-- C8 amended: extraction never raises; decoding ignores (drops) invalid
bytes, and the surviving decoded text, when non-empty, is added to the
group's SSID set; only a payload with no decodable characters is treated
as absent. -/
theorem claim_C8_amended (p : List Nat) :
    (ingestAll [] [⟨"aa:bb:cc:dd:ee:01", 0, none, none, [(0, p), (45, [7])]⟩]).map
      (fun kv => kv.2.ssids) =
    [if utf8DecodeIgnore p = [] then [] else [utf8DecodeIgnore p]] := by
  by_cases hp : p = []
  · subst hp
    decide
  · have hssid : extractSsid [(0, p), (45, [7])] = some (utf8DecodeIgnore p) := by
      simp [extractSsid, hp]
    have hmac : ((pyUpper "aa:bb:cc:dd:ee:01") == "") = false := by decide
    simp only [ingestAll, List.foldl, ingest, hmac, Bool.false_eq_true, if_false,
      List.isEmpty_cons, hssid, getGroup, List.find?, setGroup, List.map,
      updateGroup, emptyGroup]
    by_cases hd : utf8DecodeIgnore p = []
    · simp [hd, insertSet]
    · have hdf : (utf8DecodeIgnore p).isEmpty = false := by
        cases hdd : utf8DecodeIgnore p with
        | nil => exact absurd hdd hd
        | cons a l => rfl
      simp [hd, hdf, insertSet]

/-- C9: after any ingestion sequence, no address is in both the persistent
and the randomized set of a group. -/
theorem claim_C9_partition (pool : List String) (pkts : List Frame)
    (fp : String) (g : Group) (mac : String)
    (hmem : (fp, g) ∈ ingestAll pool pkts) :
    ¬(mac ∈ g.reals ∧ mac ∈ g.randoms) := by
  rintro ⟨h1, h2⟩
  have hinv := mapInv_ingestAll pool pkts (fp, g) hmem
  exact hinv.2 mac h2 (hinv.1 mac h1)

/-- Witness for C9 at the group built from one scenario frame. -/
theorem claim_C9_witness :
    ((ingestAll scenarioPool [scenarioPkt2]).headD ("", emptyGroup) ∈
      ingestAll scenarioPool [scenarioPkt2]) ∧
    ¬("00:11:22:33:44:55" ∈
        ((ingestAll scenarioPool [scenarioPkt2]).headD ("", emptyGroup)).2.reals ∧
      "00:11:22:33:44:55" ∈
        ((ingestAll scenarioPool [scenarioPkt2]).headD ("", emptyGroup)).2.randoms) :=
  ⟨by decide,
   claim_C9_partition scenarioPool [scenarioPkt2]
     ((ingestAll scenarioPool [scenarioPkt2]).headD ("", emptyGroup)).1
     ((ingestAll scenarioPool [scenarioPkt2]).headD ("", emptyGroup)).2
     "00:11:22:33:44:55" (by decide)⟩

end Fingerprint
